import Mathlib

/-!
Verification of the sandboxed filesystem layer of itb-rs-lua.

The development shallowly embeds `src/io` of the repository:
  * `path_filter.rs` — `PathFilter::is_whitelisted`, `game_directory`,
    `save_data_directory` (memoized candidate search);
  * `file.rs` / `directory.rs` — the `File` / `Directory` value types and
    their filesystem operations;
  * `has_parent.rs` / `has_root.rs` / `has_relative_path.rs` — the shared
    parent / root / relative-path derivations;
  * `lua_exports.rs` — the whitelist-gated constructors `file`, `directory`
    and the `Directory:file(...)` / `Directory:directory(...)` methods.

Paths are modelled component-wise (Unix view): an absolute path is the list
of its normal components after the root, and a raw (script-supplied) path is
a flag `abs` plus a list of components that may contain `.` and `..`.
`path_absolutize::Absolutize` is a purely lexical resolution against the
process working directory, which `resolve` mirrors (excess `..` at the root
is dropped, as the crate does).  OS-level calls (create_dir_all, fs::write,
fs::copy, fs::rename, remove) are modelled over an explicit filesystem state
`FS` and assumed not to fail at the OS layer; the errors of interest here are
the ones the repository itself raises (whitelist denial, missing targets).
-/

namespace ItbIo

/-- One component of a raw path, as produced by Rust's `Path::components`:
`.` (CurDir), `..` (ParentDir) or a normal named component.  Root markers are
kept in `RPath.abs` instead. -/
inductive PComp where
  | cur : PComp
  | up : PComp
  | normal (s : String) : PComp
deriving DecidableEq, Repr

/-- A raw path as supplied by scripts: absolute or relative, plus its
components in order. -/
structure RPath where
  abs : Bool
  comps : List PComp
deriving DecidableEq, Repr

/-- Lexical resolution of components against an accumulator, as performed by
`path_absolutize`: `.` is skipped, `..` pops (and is dropped at the root),
normal components are appended. -/
def resolve : List String → List PComp → List String
  | acc, [] => acc
  | acc, PComp.cur :: rest => resolve acc rest
  | acc, PComp.up :: rest => resolve acc.dropLast rest
  | acc, PComp.normal s :: rest => resolve (acc ++ [s]) rest

/-- `path.absolutize()` from the `path_absolutize` crate: a relative path is
resolved against the current working directory, an absolute one against the
filesystem root. -/
def absolutize (cwd : List String) (p : RPath) : List String :=
  resolve (if p.abs then [] else cwd) p.comps

/-- View an already-resolved absolute path as a raw path. -/
def ofAbs (l : List String) : RPath :=
  ⟨true, l.map PComp.normal⟩

/-- The resolved environment the filter runs in: `cwd` is
`PathFilter::game_directory()` (the absolutized working directory) and
`save` the successfully resolved `PathFilter::save_data_directory()`. -/
structure Env where
  cwd : List String
  save : List String
deriving DecidableEq, Repr

/-- `PathFilter::is_whitelisted`: absolutize the path, then test whether it
starts with the game directory or with the save-data directory
(`Path::starts_with` is a component-wise test, i.e. list prefix). -/
def isWhitelisted (env : Env) (p : RPath) : Bool :=
  let normalized := absolutize env.cwd p
  env.cwd.isPrefixOf normalized || env.save.isPrefixOf normalized

/-- Spec-side characterisation: `q` is equal to the root `r`, or a strict
descendant of it (extends it by at least one component). -/
def isUnder (r q : List String) : Prop :=
  q = r ∨ ∃ s, s ≠ [] ∧ q = r ++ s

/-- Spec-side characterisation of the whitelist: inside at least one of the
two permitted roots. -/
def inRoots (env : Env) (q : List String) : Prop :=
  isUnder env.cwd q ∨ isUnder env.save q

theorem resolve_append_normal (l : List String) (acc : List String) :
    resolve acc (l.map PComp.normal) = acc ++ l := by
  induction l generalizing acc with
  | nil => simp [resolve]
  | cons x xs ih => simp [resolve, ih, List.append_assoc]

theorem absolutize_ofAbs (cwd l : List String) :
    absolutize cwd (ofAbs l) = l := by
  simp [absolutize, ofAbs, resolve_append_normal]

theorem isUnder_iff_isPrefixOf (r q : List String) :
    isUnder r q ↔ r.isPrefixOf q = true := by
  rw [ List.isPrefixOf_iff_prefix]
  constructor
  · rintro (rfl | ⟨s, _, rfl⟩)
    · exact List.prefix_refl _
    · exact ⟨s, rfl⟩
  · rintro ⟨t, rfl⟩
    cases t with
    | nil => exact Or.inl (by simp)
    | cons x xs => exact Or.inr ⟨x :: xs, by simp, rfl⟩

theorem isWhitelisted_iff_inRoots (env : Env) (p : RPath) :
    isWhitelisted env p = true ↔ inRoots env (absolutize env.cwd p) := by
  simp only [isWhitelisted, inRoots, Bool.or_eq_true,
    isUnder_iff_isPrefixOf]

instance (r q : List String) : Decidable (isUnder r q) :=
  decidable_of_iff _ (isUnder_iff_isPrefixOf r q).symm

instance (env : Env) (q : List String) : Decidable (inRoots env q) := by
  unfold inRoots
  infer_instance

/-- **C1.** `PathFilter::is_whitelisted(p)` returns `true` exactly when the
absolutized form of `p` is equal to, or a strict descendant of, the
installation root or the save-data root; it returns `false` for every
absolutized path outside both roots. -/
theorem c1_is_whitelisted_characterisation (env : Env) (p : RPath) :
    isWhitelisted env p = true ↔
      (absolutize env.cwd p = env.cwd
        ∨ (∃ s, s ≠ [] ∧ absolutize env.cwd p = env.cwd ++ s)
        ∨ absolutize env.cwd p = env.save
        ∨ (∃ s, s ≠ [] ∧ absolutize env.cwd p = env.save ++ s)) := by
  rw [isWhitelisted_iff_inRoots]
  unfold inRoots isUnder
  exact or_assoc

/-- The error kinds the io layer raises itself (OS-level errors are passed
through in the source and are not modelled). -/
inductive Err where
  | notWhitelisted
  | notFound
  | saveDataUnresolvable
  | noParent
  | notAbsolute
deriving DecidableEq, Repr

theorem resolve_append (acc : List String) (l₁ l₂ : List PComp) :
    resolve acc (l₁ ++ l₂) = resolve (resolve acc l₁) l₂ := by
  induction l₁ generalizing acc with
  | nil => rfl
  | cons c rest ih => cases c <;> simp [resolve, ih]

theorem isWhitelisted_ofAbs_iff (env : Env) (q : List String) :
    isWhitelisted env (ofAbs q) = true ↔ inRoots env q := by
  rw [isWhitelisted_iff_inRoots, absolutize_ofAbs]

theorem isUnder_iff (r q : List String) : isUnder r q ↔ r <+: q := by
  rw [isUnder_iff_isPrefixOf, List.isPrefixOf_iff_prefix]

/-- `lua_exports.rs::file`: construct a `File` only when the (already
absolutized) path passes the whitelist. -/
def luaFile (env : Env) (p : RPath) : Except Err (List String) :=
  let normalized := absolutize env.cwd p
  if isWhitelisted env (ofAbs normalized) then .ok normalized
  else .error .notWhitelisted

/-- `lua_exports.rs::directory`: the `Directory` counterpart of `luaFile`. -/
def luaDirectory (env : Env) (p : RPath) : Except Err (List String) :=
  let normalized := absolutize env.cwd p
  if isWhitelisted env (ofAbs normalized) then .ok normalized
  else .error .notWhitelisted

/-- The Lua method `Directory:file(segments...)`: the segments are collected
into one relative path, joined onto the directory's path, absolutized, and
only then gated through `file`. -/
def dirFile (env : Env) (d : List String) (segs : List (List PComp)) :
    Except Err (List String) :=
  let joined : RPath := ⟨true, d.map PComp.normal ++ segs.flatten⟩
  let normalized := absolutize env.cwd joined
  if isWhitelisted env (ofAbs normalized) then .ok normalized
  else .error .notWhitelisted

/-- The Lua method `Directory:directory(segments...)`, same shape as
`dirFile`. -/
def dirDirectory (env : Env) (d : List String) (segs : List (List PComp)) :
    Except Err (List String) :=
  let joined : RPath := ⟨true, d.map PComp.normal ++ segs.flatten⟩
  let normalized := absolutize env.cwd joined
  if isWhitelisted env (ofAbs normalized) then .ok normalized
  else .error .notWhitelisted

/-- `has_parent.rs::HasParent::parent` (used by `Directory`): take the path's
parent (`PathBuf::parent`, i.e. drop the last component; the filesystem root
has no parent) and admit it only if it is whitelisted. -/
def parentD (env : Env) (d : List String) : Except Err (List String) :=
  if d = [] then .error .noParent
  else if isWhitelisted env (ofAbs d.dropLast) then .ok d.dropLast
  else .error .notWhitelisted

/-- `file.rs::File::parent`: like `parentD`, except a missing parent yields
`Ok(None)` rather than an error. -/
def parentF (env : Env) (p : List String) : Except Err (Option (List String)) :=
  if p = [] then .ok none
  else if isWhitelisted env (ofAbs p.dropLast) then .ok (some p.dropLast)
  else .error .notWhitelisted

/-- `has_root.rs::HasRoot::root` / `file.rs::File::root`: the game directory
when the path starts with it, otherwise the save-data directory —
unconditionally. -/
def rootOf (env : Env) (p : List String) : List String :=
  if env.cwd.isPrefixOf p then env.cwd else env.save

/-- **C3.** A segment sequence handed to `Directory:file(...)` or
`Directory:directory(...)` is joined and absolutized before the whitelist
check: whenever the resolved join (which collapses `..` components) lies
outside both roots, the constructors fail with `NotWhitelisted` instead of
producing a value for the escaped path. -/
theorem c3_dir_constructors_deny_escaped_segments (env : Env)
    (d : List String) (segs : List (List PComp))
    (h : ¬ inRoots env (absolutize env.cwd ⟨true, d.map PComp.normal ++ segs.flatten⟩)) :
    dirFile env d segs = .error .notWhitelisted
      ∧ dirDirectory env d segs = .error .notWhitelisted := by
  have hw : isWhitelisted env
      (ofAbs (absolutize env.cwd ⟨true, d.map PComp.normal ++ segs.flatten⟩)) = false := by
    rw [← Bool.not_eq_true, isWhitelisted_ofAbs_iff]
    exact h
  constructor <;> simp [dirFile, dirDirectory, hw]

/-- Witness for C3: from inside `/game/mods`, the segments `.. , .. , etc`
resolve to `/etc`, outside both roots, and construction is denied. -/
theorem c3_witness :
    dirFile ⟨["game"], ["save"]⟩ ["game", "mods"]
        [[PComp.up], [PComp.up], [PComp.normal "etc"]] = .error .notWhitelisted
      ∧ dirDirectory ⟨["game"], ["save"]⟩ ["game", "mods"]
        [[PComp.up], [PComp.up], [PComp.normal "etc"]] = .error .notWhitelisted :=
  c3_dir_constructors_deny_escaped_segments ⟨["game"], ["save"]⟩
    ["game", "mods"] [[PComp.up], [PComp.up], [PComp.normal "etc"]] (by decide)

/-- Counterexample to **C6** as stated: when the save-data root is a proper
ancestor of the installation root (reachable: the game installed inside the
documents save folder), `parent()` on the installation root succeeds —
the root's immediate containing path is inside the *other* root, so the call
does not fail with `NotWhitelisted`. -/
theorem c6_counterexample :
    parentD ⟨["home", "u", "Documents", "My Games", "Into The Breach", "game"],
        ["home", "u", "Documents", "My Games", "Into The Breach"]⟩
      ["home", "u", "Documents", "My Games", "Into The Breach", "game"]
      = .ok ["home", "u", "Documents", "My Games", "Into The Breach"] := by
  rfl

/-- **C6 (amended).** `parent()` on a root directory (or a `File` wrapping a
root path) fails with `NotWhitelisted` provided the root is not the
filesystem root and the *other* root is not a prefix of its parent path; in
the nested-roots configuration the call instead succeeds
(`c6_counterexample`). -/
theorem c6_amended_parent_of_root_denied (env : Env) :
    (env.cwd ≠ [] → ¬ env.save <+: env.cwd.dropLast →
      parentD env env.cwd = .error .notWhitelisted
        ∧ parentF env env.cwd = .error .notWhitelisted)
    ∧ (env.save ≠ [] → ¬ env.cwd <+: env.save.dropLast →
      parentD env env.save = .error .notWhitelisted
        ∧ parentF env env.save = .error .notWhitelisted) := by
  have hself : ∀ l : List String, l ≠ [] → ¬ l <+: l.dropLast := by
    intro l hl hpre
    have hlen := hpre.length_le
    rw [List.length_dropLast] at hlen
    have : 0 < l.length := List.length_pos.mpr hl
    omega
  constructor
  · intro h1 h2
    have hw : isWhitelisted env (ofAbs env.cwd.dropLast) = false := by
      rw [← Bool.not_eq_true, isWhitelisted_ofAbs_iff]
      rintro (hu | hu) <;> rw [isUnder_iff] at hu
      · exact hself env.cwd h1 hu
      · exact h2 hu
    constructor <;> simp [parentD, parentF, h1, hw]
  · intro h1 h2
    have hw : isWhitelisted env (ofAbs env.save.dropLast) = false := by
      rw [← Bool.not_eq_true, isWhitelisted_ofAbs_iff]
      rintro (hu | hu) <;> rw [isUnder_iff] at hu
      · exact h2 hu
      · exact hself env.save h1 hu
    constructor <;> simp [parentD, parentF, h1, hw]

/-- Witness for the amended C6 at disjoint roots `/game` and `/save`. -/
theorem c6_amended_witness :
    parentD ⟨["game"], ["save"]⟩ ["game"] = .error .notWhitelisted
      ∧ parentF ⟨["game"], ["save"]⟩ ["game"] = .error .notWhitelisted :=
  (c6_amended_parent_of_root_denied ⟨["game"], ["save"]⟩).1 (by decide) (by decide)

/-- Counterexample to **C9** as stated: for a value wrapping a path outside
both roots (such values exist — `File::from` is unchecked and symlinked
listings produce them), `root()` still answers the save-data root, which is
not a prefix of the entity's path. -/
theorem c9_counterexample :
    rootOf ⟨["game"], ["save"]⟩ ["etc", "passwd"] = ["save"]
      ∧ ¬ ["save"] <+: ["etc", "passwd"]
      ∧ ¬ ["game"] <+: ["etc", "passwd"] := by
  refine ⟨by decide, ?_, ?_⟩ <;> decide

/-- **C9 (amended).** For an entity that actually lies under one of the two
permitted roots, `root()` returns one of the roots and that root is a prefix
of the entity's path; for any path not under the installation root the
save-data root is returned unconditionally, whether or not it contains the
path. -/
theorem c9_amended_root_containment (env : Env) (p : List String) :
    (inRoots env p →
      rootOf env p <+: p ∧ (rootOf env p = env.cwd ∨ rootOf env p = env.save))
    ∧ (¬ env.cwd <+: p → rootOf env p = env.save) := by
  constructor
  · intro hin
    unfold rootOf
    by_cases hg : env.cwd.isPrefixOf p
    · rw [if_pos hg]
      rw [ List.isPrefixOf_iff_prefix] at hg
      exact ⟨hg, Or.inl rfl⟩
    · rw [if_neg hg]
      rw [ List.isPrefixOf_iff_prefix] at hg
      rcases hin with hu | hu
      · rw [isUnder_iff] at hu
        exact absurd hu hg
      · rw [isUnder_iff] at hu
        exact ⟨hu, Or.inr rfl⟩
  · intro hg
    unfold rootOf
    rw [if_neg]
    rw [ List.isPrefixOf_iff_prefix]
    exact hg

/-- Witness for the amended C9 at a path inside the save root. -/
theorem c9_amended_witness :
    rootOf ⟨["game"], ["save"]⟩ ["save", "profile"] <+: ["save", "profile"]
      ∧ (rootOf ⟨["game"], ["save"]⟩ ["save", "profile"] = ["game"]
          ∨ rootOf ⟨["game"], ["save"]⟩ ["save", "profile"] = ["save"]) :=
  (c9_amended_root_containment ⟨["game"], ["save"]⟩ ["save", "profile"]).1
    (by decide)

/-- Environment seen by `PathFilter::save_data_directory`:
`userDirs = none` models `UserDirs::new()` failing (no home directory),
`userDirs = some docDir` carries the optional documents directory
(`user_dirs.document_dir()`); `marker q` is whether `q/io_test.txt` exists on
the filesystem at the time of the call. -/
structure SaveEnv where
  cwd : List String
  userDirs : Option (Option (List String))
  marker : List String → Bool

/-- Candidate (b): `./../../steamapps/compatdata/590380/pfx/`, the
Steam/Proton compatibility-layer path. -/
def protonCandidate : RPath :=
  ⟨false, [PComp.cur, PComp.up, PComp.up, PComp.normal "steamapps",
    PComp.normal "compatdata", PComp.normal "590380", PComp.normal "pfx"]⟩

/-- Candidate (c): `./user`, the installation-directory fallback. -/
def userCandidate : RPath :=
  ⟨false, [PComp.cur, PComp.normal "user"]⟩

/-- Candidate (a): `document_dir().join("My Games/Into The Breach")`. -/
def docsCandidate (d : List String) : RPath :=
  ofAbs (d ++ ["My Games", "Into The Breach"])

/-- The ordered candidate list built by `save_data_directory`: the documents
candidate (when a documents directory exists), then the Proton path, then the
installation fallback. -/
def candidates (docDir : Option (List String)) : List RPath :=
  (match docDir with
    | some d => [docsCandidate d]
    | none => []) ++ [protonCandidate, userCandidate]

/-- `PathFilter::is_save_data_location_valid`: existence (and nothing else)
of the fixed marker file `io_test.txt` inside the candidate; a relative
candidate is resolved by the OS against the working directory. -/
def isValidLoc (env : SaveEnv) (c : RPath) : Bool :=
  env.marker (absolutize env.cwd c)

/-- `PathFilter::save_data_directory` with its process-wide cache made
explicit: returns the result together with the cache after the call.  A
cached value short-circuits the search; a successful search absolutizes the
winning candidate and stores it; failures leave the cache untouched. -/
def saveDataDirectory (env : SaveEnv) (cache : Option (List String)) :
    Except Err (List String) × Option (List String) :=
  match cache with
  | some p => (.ok p, some p)
  | none =>
    match env.userDirs with
    | none => (.error .saveDataUnresolvable, none)
    | some docDir =>
      match (candidates docDir).find? (fun c => isValidLoc env c) with
      | none => (.error .saveDataUnresolvable, none)
      | some c =>
        let p := absolutize env.cwd c
        (.ok p, some p)

theorem find_at {α : Type} (p : α → Bool) (l : List α) (i : Fin l.length)
    (hi : p (l.get i) = true)
    (hmin : ∀ j : Fin l.length, j.val < i.val → p (l.get j) = false) :
    l.find? p = some (l.get i) := by
  induction l with
  | nil => exact absurd i.isLt (by simp)
  | cons x xs ih =>
    rcases i with ⟨iv, hlt⟩
    cases iv with
    | zero =>
      simp only [List.get] at hi
      simp [List.find?, hi]
    | succ n =>
      have hx : p x = false := hmin ⟨0, by simp⟩ (Nat.succ_pos n)
      simp only [List.find?, hx]
      exact ih ⟨n, Nat.lt_of_succ_lt_succ hlt⟩ hi
        (fun j hj => hmin ⟨j.val + 1, Nat.succ_lt_succ j.isLt⟩ (Nat.succ_lt_succ hj))

/-- **C4.** The save-data search is memoized and failure is never cached:
once a call returns `Ok p` with cache `c`, any later call — under any
environment, so no search is repeated — returns the identical `p` and leaves
the cache at `c`; and any failing call leaves the cache exactly as it found
it, so a later call re-runs the full search. -/
theorem c4_save_data_memoization (env later : SaveEnv)
    (cache : Option (List String)) :
    (∀ p c, saveDataDirectory env cache = (.ok p, c) →
      saveDataDirectory later c = (.ok p, c))
    ∧ (∀ e c, saveDataDirectory env cache = (.error e, c) → c = cache) := by
  constructor
  · intro p c h
    cases cache with
    | some q =>
      simp only [saveDataDirectory, Prod.mk.injEq, Except.ok.injEq] at h
      obtain ⟨h1, h2⟩ := h
      subst h1
      subst h2
      simp [saveDataDirectory]
    | none =>
      cases hud : env.userDirs with
      | none => simp [saveDataDirectory, hud] at h
      | some docDir =>
        cases hf : (candidates docDir).find? (fun c => isValidLoc env c) with
        | none => simp [saveDataDirectory, hud, hf] at h
        | some cand =>
          simp only [saveDataDirectory, hud, hf, Prod.mk.injEq,
            Except.ok.injEq] at h
          obtain ⟨h1, h2⟩ := h
          subst h1
          subst h2
          simp [saveDataDirectory]
  · intro e c h
    cases cache with
    | some q => simp [saveDataDirectory] at h
    | none =>
      cases hud : env.userDirs with
      | none =>
        simp only [saveDataDirectory, hud, Prod.mk.injEq] at h
        exact h.2.symm
      | some docDir =>
        cases hf : (candidates docDir).find? (fun c => isValidLoc env c) with
        | none =>
          simp only [saveDataDirectory, hud, hf, Prod.mk.injEq] at h
          exact h.2.symm
        | some cand => simp [saveDataDirectory, hud, hf] at h

/-- Witness for C4: with the cache already holding `/save`, a later call in a
markerless environment still answers `/save` and keeps the cache. -/
theorem c4_witness :
    saveDataDirectory ⟨["game"], none, fun _ => false⟩ (some ["save"])
      = (.ok ["save"], some ["save"]) :=
  (c4_save_data_memoization ⟨["game"], some none, fun _ => true⟩
      ⟨["game"], none, fun _ => false⟩ (some ["save"])).1
    ["save"] (some ["save"]) rfl

/-- **C5.** With no cached root: if the platform reports no home directory
the search fails with `SaveDataLocationUnresolvable`; otherwise the
candidates are, in order, the documents game-save path (when a documents
directory exists), the Proton compatibility path, and the installation
fallback `./user`, and the first one whose marker file exists is absolutized,
returned and cached; if no candidate carries the marker the search fails
with `SaveDataLocationUnresolvable` and nothing is cached. -/
theorem c5_save_data_candidate_search (env : SaveEnv) :
    (env.userDirs = none →
      saveDataDirectory env none = (.error .saveDataUnresolvable, none))
    ∧ (∀ docDir, env.userDirs = some docDir →
      ((∀ c ∈ candidates docDir, isValidLoc env c = false) →
        saveDataDirectory env none = (.error .saveDataUnresolvable, none))
      ∧ (∀ i : Fin (candidates docDir).length,
          isValidLoc env ((candidates docDir).get i) = true →
          (∀ j : Fin (candidates docDir).length, j.val < i.val →
            isValidLoc env ((candidates docDir).get j) = false) →
          saveDataDirectory env none =
            (.ok (absolutize env.cwd ((candidates docDir).get i)),
              some (absolutize env.cwd ((candidates docDir).get i))))) := by
  constructor
  · intro h
    simp [saveDataDirectory, h]
  · intro docDir h
    constructor
    · intro hall
      have hf : (candidates docDir).find? (fun c => isValidLoc env c) = none :=
        List.find?_eq_none.mpr (by intro x hx; simp [hall x hx])
      simp [saveDataDirectory, h, hf]
    · intro i hi hmin
      have hf : (candidates docDir).find? (fun c => isValidLoc env c)
          = some ((candidates docDir).get i) :=
        find_at (fun c => isValidLoc env c) (candidates docDir) i hi hmin
      simp [saveDataDirectory, h, hf]

/-- Witness for C5: documents candidate without marker, Proton candidate with
marker — the Proton path (position (b)) wins and is cached, absolutized
against `cwd = /a/b/c`. -/
theorem c5_witness :
    saveDataDirectory
      ⟨["a", "b", "c"], some (some ["home", "docs"]),
        fun l => l == ["a", "steamapps", "compatdata", "590380", "pfx"]⟩ none
      = (.ok ["a", "steamapps", "compatdata", "590380", "pfx"],
          some ["a", "steamapps", "compatdata", "590380", "pfx"]) := by
  have h := ((c5_save_data_candidate_search
      ⟨["a", "b", "c"], some (some ["home", "docs"]),
        fun l => l == ["a", "steamapps", "compatdata", "590380", "pfx"]⟩).2
      (some ["home", "docs"]) rfl).2 ⟨1, by decide⟩ (by decide)
      (fun j hj => by
        fin_cases j
        · decide
        · exact absurd hj (by decide)
        · exact absurd hj (by decide))
  exact h

/-- Explicit filesystem state for the mutating operations: the set of
existing directories and the files with their contents (byte contents are
modelled as strings; OS-level failures such as permission errors are passed
through unmodelled in the source and assumed absent here). -/
structure FS where
  dirs : List (List String)
  files : List (List String × String)
deriving DecidableEq, Repr

def getFile (fs : FS) (p : List String) : Option String :=
  (fs.files.find? (fun e => e.1 == p)).map Prod.snd

def setFile (fs : FS) (p : List String) (c : String) : FS :=
  ⟨fs.dirs, (p, c) :: fs.files.filter (fun e => !(e.1 == p))⟩

def removeFile (fs : FS) (p : List String) : FS :=
  ⟨fs.dirs, fs.files.filter (fun e => !(e.1 == p))⟩

/-- `std::fs::create_dir_all`: the directory and every missing ancestor come
into existence. -/
def addDirs (fs : FS) (p : List String) : FS :=
  ⟨p.inits ++ fs.dirs, fs.files⟩

/-- `File::write_string` (and `write_byte_array`, which is identical):
create the parent directories, then overwrite.  No whitelist check appears
in the source. -/
def writeString (fs : FS) (p : List String) (c : String) : Except Err FS :=
  let fs1 := if p = [] then fs else addDirs fs p.dropLast
  .ok (setFile fs1 p c)

/-- `File::append_string`: create the parent directories, open with
append+create, write.  No whitelist check appears in the source (and the
`open` is `.unwrap()`ed, see C10). -/
def appendString (fs : FS) (p : List String) (c : String) : Except Err FS :=
  let fs1 := if p = [] then fs else addDirs fs p.dropLast
  .ok (setFile fs1 p ((getFile fs p).getD "" ++ c))

/-- `File::delete`: `remove_file` when the target exists, silent no-op
otherwise.  No whitelist check appears in the source. -/
def deleteFile (fs : FS) (p : List String) : Except Err FS :=
  if (getFile fs p).isSome then .ok (removeFile fs p) else .ok fs

/-- `Directory::delete`: recursive `remove_dir_all` when the target exists,
silent no-op otherwise.  No whitelist check appears in the source. -/
def deleteDir (fs : FS) (d : List String) : Except Err FS :=
  if d ∈ fs.dirs then
    .ok ⟨fs.dirs.filter (fun q => !(d.isPrefixOf q)),
      fs.files.filter (fun e => !(d.isPrefixOf e.1))⟩
  else .ok fs

/-- `Directory::make_directories`: gated on the whitelist, then
`create_dir_all`. -/
def makeDirectories (env : Env) (fs : FS) (d : List String) : Except Err FS :=
  if isWhitelisted env (ofAbs d) then .ok (addDirs fs d)
  else .error .notWhitelisted

/-- `File::copy`: whitelist-check the destination (the source is used as-is),
create the destination's parent directories, then `fs::copy`. -/
def copyF (env : Env) (fs : FS) (src : List String) (dest : RPath) :
    Except Err FS :=
  if isWhitelisted env dest then
    let d := absolutize env.cwd dest
    let fs1 := if d = [] then fs else addDirs fs d.dropLast
    match getFile fs1 src with
    | some c => .ok (setFile fs1 d c)
    | none => .error .notFound
  else .error .notWhitelisted

/-- `File::move_file`: like `copyF` but the underlying call is `fs::rename`,
which removes the source. -/
def moveF (env : Env) (fs : FS) (src : List String) (dest : RPath) :
    Except Err FS :=
  if isWhitelisted env dest then
    let d := absolutize env.cwd dest
    let fs1 := if d = [] then fs else addDirs fs d.dropLast
    match getFile fs1 src with
    | some c => .ok (setFile (removeFile fs1 src) d c)
    | none => .error .notFound
  else .error .notWhitelisted

theorem getFile_addDirs (fs : FS) (p q : List String) :
    getFile (addDirs fs p) q = getFile fs q := rfl

theorem getFile_setFile_self (fs : FS) (p : List String) (c : String) :
    getFile (setFile fs p c) p = some c := by
  simp [getFile, setFile, List.find?]

theorem getFile_setFile_ne (fs : FS) (p q : List String) (c : String)
    (h : q ≠ p) : getFile (setFile fs p c) q = getFile (removeFile fs p) q := by
  simp only [getFile, setFile, removeFile, List.find?]
  have : (p == q) = false := by simpa using fun he => h he.symm
  simp [this]

theorem getFile_removeFile_self (fs : FS) (p : List String) :
    getFile (removeFile fs p) p = none := by
  have hf : (fs.files.filter (fun e => !(e.1 == p))).find? (fun e => e.1 == p)
      = none := by
    rw [List.find?_eq_none]
    intro e he
    rw [List.mem_filter] at he
    simpa using he.2
  simp [getFile, removeFile, hf]

theorem find_filter_ne (l : List (List String × String)) (p q : List String)
    (h : q ≠ p) :
    (l.filter (fun e => !(e.1 == p))).find? (fun e => e.1 == q)
      = l.find? (fun e => e.1 == q) := by
  induction l with
  | nil => rfl
  | cons x xs ih =>
    by_cases hx : x.1 = q
    · have h1 : (x.1 == p) = false := by simp [hx, h]
      have h2 : (x.1 == q) = true := by simp [hx]
      simp [List.filter, List.find?, h1, h2]
    · have h2 : (x.1 == q) = false := by simp [hx]
      by_cases hp : x.1 = p
      · have h1 : (x.1 == p) = true := by simp [hp]
        simp [List.filter, h1, List.find?, h2, ih]
      · have h1 : (x.1 == p) = false := by simp [hp]
        simp [List.filter, h1, List.find?, h2, ih]

theorem getFile_removeFile_ne (fs : FS) (p q : List String) (h : q ≠ p) :
    getFile (removeFile fs p) q = getFile fs q := by
  simp [getFile, removeFile, find_filter_ne fs.files p q h]

/-- Counterexample to **C2** as stated: `File::write_string` performs no
whitelist check at all — on the path `/etc/x`, for which `is_whitelisted`
answers `false`, the write succeeds (creating the parent directory and the
file) instead of failing with `NotWhitelisted`; `File::delete` likewise
deletes without any check. -/
theorem c2_counterexample :
    isWhitelisted ⟨["game"], ["save"]⟩ (ofAbs ["etc", "x"]) = false
      ∧ writeString ⟨[], []⟩ ["etc", "x"] "data"
          = .ok ⟨[[], ["etc"]], [(["etc", "x"], "data")]⟩
      ∧ deleteFile ⟨[], [(["etc", "x"], "data")]⟩ ["etc", "x"]
          = .ok ⟨[], []⟩ := by
  refine ⟨by decide, by rfl, by rfl⟩

/-- **C2 (amended).** Only the operations taking a *new* path consult the
whitelist: `Directory::make_directories` checks its target, and
`File::copy` / `File::move_file` check the destination, all failing with
`NotWhitelisted` when the checked path is outside both roots.
`File::write_string` / `write_byte_array` / `append_string` /
`File::delete` / `Directory::delete` perform no whitelist check and carry
out their effect on any path, relying on construction-time validation. -/
theorem c2_amended_write_gates (env : Env) (fs : FS) (src d : List String)
    (dest : RPath) (c : String) :
    (¬ inRoots env d → makeDirectories env fs d = .error .notWhitelisted)
    ∧ (¬ inRoots env (absolutize env.cwd dest) →
        copyF env fs src dest = .error .notWhitelisted
          ∧ moveF env fs src dest = .error .notWhitelisted)
    ∧ writeString fs d c
        = .ok (setFile (if d = [] then fs else addDirs fs d.dropLast) d c)
    ∧ appendString fs d c
        = .ok (setFile (if d = [] then fs else addDirs fs d.dropLast) d
            ((getFile fs d).getD "" ++ c))
    ∧ (∃ fs2, deleteFile fs d = .ok fs2)
    ∧ (∃ fs2, deleteDir fs d = .ok fs2) := by
  refine ⟨?_, ?_, rfl, rfl, ?_, ?_⟩
  · intro h
    have hw : isWhitelisted env (ofAbs d) = false := by
      rw [← Bool.not_eq_true, isWhitelisted_ofAbs_iff]
      exact h
    simp [makeDirectories, hw]
  · intro h
    have hw : isWhitelisted env dest = false := by
      rw [← Bool.not_eq_true, isWhitelisted_iff_inRoots]
      exact h
    constructor <;> simp [copyF, moveF, hw]
  · unfold deleteFile
    by_cases h : (getFile fs d).isSome <;> simp [h]
  · unfold deleteDir
    by_cases h : d ∈ fs.dirs <;> simp [h]

/-- Witness for the amended C2 at `/game`–`/save` roots and the outside path
`/etc/x`. -/
theorem c2_amended_witness :
    makeDirectories ⟨["game"], ["save"]⟩ ⟨[], []⟩ ["etc", "x"]
        = .error .notWhitelisted
      ∧ copyF ⟨["game"], ["save"]⟩ ⟨[], []⟩ ["game", "a"] (ofAbs ["etc", "x"])
        = .error .notWhitelisted :=
  ⟨(c2_amended_write_gates ⟨["game"], ["save"]⟩ ⟨[], []⟩ ["game", "a"]
      ["etc", "x"] (ofAbs ["etc", "x"]) "").1 (by decide),
    ((c2_amended_write_gates ⟨["game"], ["save"]⟩ ⟨[], []⟩ ["game", "a"]
      ["etc", "x"] (ofAbs ["etc", "x"]) "").2.1 (by decide)).1⟩

/-- **C7.** `File::copy` and `File::move_file` gate the destination: when its
absolutized form is outside both roots they fail with `NotWhitelisted`; when
it is whitelisted and the source file exists they succeed, the destination's
missing parent directories having been created and the destination holding
the source's content (with `move` additionally removing the source); and the
source is never re-validated — once the destination passes the whitelist the
calls cannot fail with `NotWhitelisted`, whatever the source path. -/
theorem c7_copy_move_destination_gate (env : Env) (fs : FS)
    (src : List String) (dest : RPath) (c : String) :
    (¬ inRoots env (absolutize env.cwd dest) →
      copyF env fs src dest = .error .notWhitelisted
        ∧ moveF env fs src dest = .error .notWhitelisted)
    ∧ (inRoots env (absolutize env.cwd dest) → getFile fs src = some c →
      ∃ fs2 fs3,
        copyF env fs src dest = .ok fs2
        ∧ moveF env fs src dest = .ok fs3
        ∧ getFile fs2 (absolutize env.cwd dest) = some c
        ∧ getFile fs3 (absolutize env.cwd dest) = some c
        ∧ (src ≠ absolutize env.cwd dest → getFile fs3 src = none)
        ∧ (absolutize env.cwd dest ≠ [] →
            ∀ q ∈ (absolutize env.cwd dest).dropLast.inits, q ∈ fs2.dirs))
    ∧ (inRoots env (absolutize env.cwd dest) →
      copyF env fs src dest ≠ .error .notWhitelisted
        ∧ moveF env fs src dest ≠ .error .notWhitelisted) := by
  have hgate : isWhitelisted env dest = true ↔ inRoots env (absolutize env.cwd dest) :=
    isWhitelisted_iff_inRoots env dest
  refine ⟨?_, ?_, ?_⟩
  · intro h
    have hw : isWhitelisted env dest = false := by
      rw [← Bool.not_eq_true, hgate]
      exact h
    constructor <;> simp [copyF, moveF, hw]
  · intro h hsrc
    have hw : isWhitelisted env dest = true := hgate.mpr h
    have hsrc1 : getFile (if absolutize env.cwd dest = [] then fs
        else addDirs fs (absolutize env.cwd dest).dropLast) src = some c := by
      by_cases hd : absolutize env.cwd dest = [] <;>
        simp [hd, getFile_addDirs, hsrc]
    refine ⟨setFile (if absolutize env.cwd dest = [] then fs
        else addDirs fs (absolutize env.cwd dest).dropLast)
        (absolutize env.cwd dest) c,
      setFile (removeFile (if absolutize env.cwd dest = [] then fs
        else addDirs fs (absolutize env.cwd dest).dropLast) src)
        (absolutize env.cwd dest) c,
      ?_, ?_, ?_, ?_, ?_, ?_⟩
    · simp [copyF, hw, hsrc1]
    · simp [moveF, hw, hsrc1]
    · exact getFile_setFile_self _ _ _
    · exact getFile_setFile_self _ _ _
    · intro hne
      rw [getFile_setFile_ne _ _ _ _ hne, getFile_removeFile_ne _ _ _ hne]
      exact getFile_removeFile_self _ _
    · intro hd q hq
      rw [if_neg hd]
      exact List.mem_append.mpr (Or.inl hq)
  · intro h
    have hw : isWhitelisted env dest = true := hgate.mpr h
    constructor <;> intro hcon
    · unfold copyF at hcon
      rw [if_pos hw] at hcon
      cases hm : getFile (if absolutize env.cwd dest = [] then fs
          else addDirs fs (absolutize env.cwd dest).dropLast) src <;>
        simp [hm] at hcon
    · unfold moveF at hcon
      rw [if_pos hw] at hcon
      cases hm : getFile (if absolutize env.cwd dest = [] then fs
          else addDirs fs (absolutize env.cwd dest).dropLast) src <;>
        simp [hm] at hcon

/-- Witness for C7: copying `/game/a.txt` to `/save/b.txt` succeeds with the
content in place and the save directory created. -/
theorem c7_witness :
    ∃ fs2 fs3,
      copyF ⟨["game"], ["save"]⟩ ⟨[], [(["game", "a.txt"], "hello")]⟩
          ["game", "a.txt"] (ofAbs ["save", "b.txt"]) = .ok fs2
      ∧ moveF ⟨["game"], ["save"]⟩ ⟨[], [(["game", "a.txt"], "hello")]⟩
          ["game", "a.txt"] (ofAbs ["save", "b.txt"]) = .ok fs3
      ∧ getFile fs2 (absolutize ["game"] (ofAbs ["save", "b.txt"])) = some "hello"
      ∧ getFile fs3 (absolutize ["game"] (ofAbs ["save", "b.txt"])) = some "hello"
      ∧ (["game", "a.txt"] ≠ absolutize ["game"] (ofAbs ["save", "b.txt"]) →
          getFile fs3 ["game", "a.txt"] = none)
      ∧ (absolutize ["game"] (ofAbs ["save", "b.txt"]) ≠ [] →
          ∀ q ∈ (absolutize ["game"] (ofAbs ["save", "b.txt"])).dropLast.inits,
            q ∈ fs2.dirs) :=
  (c7_copy_move_destination_gate ⟨["game"], ["save"]⟩
      ⟨[], [(["game", "a.txt"], "hello")]⟩ ["game", "a.txt"]
      (ofAbs ["save", "b.txt"]) "hello").2.1 (by decide) (by decide)

/-- The shared leading components of two paths stripped away, as
`pathdiff::diff_paths` does before emitting `..` segments. -/
def stripCommon : List String → List String → List String × List String
  | a :: as, b :: bs => if a = b then stripCommon as bs else (a :: as, b :: bs)
  | as, bs => (as, bs)

/-- `pathdiff::diff_paths(p, base)` for two absolute canonical paths: one
`..` per base component left after stripping the common part, then the
remaining components of `p`.  (For two absolute inputs without `..`
components the crate never returns `None`.) -/
def diffPaths (p base : List String) : Nat × List String :=
  let pr := stripCommon p base
  (pr.2.length, pr.1)

/-- `util::normalize` applied to the `PathBuf` built from a relative
component list: the components joined with `/`. -/
def joinSlash : List String → String
  | [] => ""
  | [x] => x
  | x :: y :: xs => x ++ "/" ++ joinSlash (y :: xs)

def renderRel (pr : Nat × List String) : String :=
  joinSlash (List.replicate pr.1 ".." ++ pr.2)

/-- `HasRelativePath::relative_path` for a `Directory`:
`root().relativize(self.path())`, where `Directory::relativize` appends a
trailing `/` when the argument is a directory on the real filesystem
(`fsIsDir` is that stat). -/
def relativePathD (env : Env) (fsIsDir : List String → Bool)
    (d : List String) : String :=
  let r := rootOf env d
  let s := renderRel (diffPaths d r)
  if fsIsDir d then s ++ "/" else s

/-- `File::relative_path`: same derivation through `Directory::relativize`
(the extra `normalize` pass in `file.rs` is the identity on the already
normalized string). -/
def relativePathF (env : Env) (fsIsDir : List String → Bool)
    (p : List String) : String :=
  let r := rootOf env p
  let s := renderRel (diffPaths p r)
  if fsIsDir p then s ++ "/" else s

theorem stripCommon_self (l : List String) : stripCommon l l = ([], []) := by
  induction l with
  | nil => rfl
  | cons a as ih => simp [stripCommon, ih]

theorem stripCommon_eq_nil (d r : List String)
    (h : stripCommon d r = ([], [])) : d = r := by
  induction d generalizing r with
  | nil =>
    cases r with
    | nil => rfl
    | cons b bs => simp [stripCommon] at h
  | cons a as ih =>
    cases r with
    | nil => simp [stripCommon] at h
    | cons b bs =>
      by_cases hab : a = b
      · rw [hab]
        rw [stripCommon, if_pos hab] at h
        rw [ih bs h]
      · rw [stripCommon, if_neg hab] at h
        exact absurd h (by simp)

theorem stripCommon_fst_subset (d r : List String) :
    ∀ s ∈ (stripCommon d r).1, s ∈ d := by
  induction d generalizing r with
  | nil =>
    intro s hs
    cases r <;> simp [stripCommon] at hs
  | cons a as ih =>
    intro s hs
    cases r with
    | nil =>
      simp only [stripCommon] at hs
      exact hs
    | cons b bs =>
      by_cases hab : a = b
      · rw [stripCommon, if_pos hab] at hs
        exact List.mem_cons_of_mem a (ih bs s hs)
      · rw [stripCommon, if_neg hab] at hs
        exact hs

theorem sdata_append (s t : String) : (s ++ t).data = s.data ++ t.data := by
  cases s
  cases t
  rfl

theorem joinSlash_head (x : String) (xs : List String) (hx : x.data ≠ []) :
    (joinSlash (x :: xs)).data.head? = x.data.head? := by
  cases xs with
  | nil => rfl
  | cons y ys =>
    show ((x ++ "/" ++ joinSlash (y :: ys)).data).head? = _
    rw [sdata_append, sdata_append]
    cases hxd : x.data with
    | nil => exact absurd hxd hx
    | cons c cs => simp [hxd]

theorem head_append_slash (s : String) (h : s.data ≠ []) :
    ((s ++ "/").data).head? = s.data.head? := by
  rw [sdata_append]
  cases hs : s.data with
  | nil => exact absurd hs h
  | cons c cs => simp [hs]

/-- Counterexample to **C8** as stated: for a `Directory` that is itself its
containing root and exists on the filesystem, `relative_path()` returns
`"/"` — the empty diff plus the trailing-slash rule — which both begins with
`/` and is not the empty string the claim promises. -/
theorem c8_counterexample :
    relativePathD ⟨["game"], ["save"]⟩ (fun l => l == ["game"]) ["game"]
      = "/" := by
  rfl

/-- **C8 (amended).** `relative_path()` never begins with `/` for an entity
distinct from its derived root (whose path components, being genuine path
components, are nonempty and slash-free); for an entity equal to its root it
returns the empty string when the path is not an existing directory, and
`"/"` when it is (`c8_counterexample`). -/
theorem c8_amended_relative_path (env : Env) (fsIsDir : List String → Bool)
    (d : List String) :
    (d ≠ rootOf env d → (∀ s ∈ d, s.data ≠ [] ∧ '/' ∉ s.data) →
      (relativePathD env fsIsDir d).data.head? ≠ some '/'
        ∧ (relativePathF env fsIsDir d).data.head? ≠ some '/')
    ∧ (d = rootOf env d → fsIsDir d = false →
      relativePathD env fsIsDir d = "" ∧ relativePathF env fsIsDir d = "") := by
  constructor
  · intro hne hcomps
    have hmain : ∃ ch, (renderRel (diffPaths d (rootOf env d))).data.head?
        = some ch ∧ ch ≠ '/' := by
      unfold renderRel diffPaths
      cases hb : (stripCommon d (rootOf env d)).2 with
      | cons b bs =>
        have hhead : List.replicate ((stripCommon d (rootOf env d)).2).length ".."
            ++ (stripCommon d (rootOf env d)).1
            = ".." :: (List.replicate bs.length ".."
                ++ (stripCommon d (rootOf env d)).1) := by
          rw [hb]
          simp [List.replicate]
        rw [hhead, joinSlash_head ".." _ (by decide)]
        exact ⟨'.', rfl, by decide⟩
      | nil =>
        cases hc : (stripCommon d (rootOf env d)).1 with
        | nil =>
          exact absurd (stripCommon_eq_nil d (rootOf env d)
            (Prod.ext hc hb)) hne
        | cons c cs =>
          have hcd : c ∈ d := stripCommon_fst_subset d (rootOf env d) c
            (by rw [hc]; exact List.mem_cons_self c cs)
          obtain ⟨hcne, hcslash⟩ := hcomps c hcd
          have hhead : List.replicate ((stripCommon d (rootOf env d)).2).length ".."
              ++ (stripCommon d (rootOf env d)).1 = c :: cs := by
            rw [hb, hc]
            simp
          rw [hhead, joinSlash_head c cs hcne]
          cases hcd2 : c.data with
          | nil => exact absurd hcd2 hcne
          | cons ch ct =>
            refine ⟨ch, by simp [hcd2], ?_⟩
            intro hch
            rw [hcd2, hch] at hcslash
            exact hcslash (List.mem_cons_self _ _)
    obtain ⟨ch, hch, hchne⟩ := hmain
    have hdata : (renderRel (diffPaths d (rootOf env d))).data ≠ [] := by
      intro hd0
      rw [hd0] at hch
      simp at hch
    have hgoal : ∀ b : Bool,
        ((if b then renderRel (diffPaths d (rootOf env d)) ++ "/"
          else renderRel (diffPaths d (rootOf env d))).data).head? ≠ some '/' := by
      intro b
      cases b with
      | false =>
        rw [if_neg (by simp)]
        rw [hch]
        simp [hchne]
      | true =>
        rw [if_pos rfl]
        rw [head_append_slash _ hdata, hch]
        simp [hchne]
    exact ⟨hgoal (fsIsDir d), hgoal (fsIsDir d)⟩
  · intro hroot hdir
    have hd : diffPaths d (rootOf env d) = (0, []) := by
      unfold diffPaths
      rw [← hroot, stripCommon_self]
      rfl
    constructor <;>
      simp [relativePathD, relativePathF, hd, hdir, renderRel, joinSlash]

/-- Witness for the amended C8 at `/game/mods` (an existing directory): its
relative path starts with `m`, not `/`. -/
theorem c8_amended_witness :
    (relativePathD ⟨["game"], ["save"]⟩ (fun _ => true)
        ["game", "mods"]).data.head? ≠ some '/'
      ∧ (relativePathF ⟨["game"], ["save"]⟩ (fun _ => true)
        ["game", "mods"]).data.head? ≠ some '/' :=
  (c8_amended_relative_path ⟨["game"], ["save"]⟩ (fun _ => true)
    ["game", "mods"]).1 (by decide) (by decide)

/-- `File::name` / `Directory::name` / `File::name_without_extension`
evaluate `self.path.file_name().unwrap()` (resp. `file_stem().unwrap()`):
`Path::file_name` answers the final normal component, and is `None` when the
path has none (the filesystem root), upon which the `unwrap` aborts the
process.  The abort is surfaced here as `none`. -/
def nameQuery (p : List String) : Option String :=
  p.getLast?

/-- **C10** fails on the code: calling `name()` on a value wrapping the
filesystem root — constructible, since `File::from` / `Directory::from` are
unchecked — panics via `unwrap` instead of returning a `Result`, so this
failure is fatal to the process rather than local to the call (the spec's
own design notes flag exactly this unwrap as a defect to fix).  On a
well-formed path the query answers the final component. -/
theorem c10_name_on_root_aborts :
    nameQuery [] = none ∧ nameQuery ["game", "a.txt"] = some "a.txt" := by
  constructor <;> rfl

end ItbIo
